import Mathlib

/-!
Verification of the mcash.recipe.appengine buildout recipe (src/appengine.py).

Paths are modelled as lists of characters (Python `str`), with `/` as `os.sep`
(the recipe targets POSIX).  The cwd-dependent resolution
`os.path.abspath(os.path.normpath(-))` and `os.path.realpath` are abstracted as
function parameters: the theorems hold for every resolution function, and the
shape invariant `resolvedShape` records the two facts about their outputs the
proofs use (absolute, and no trailing separator except for the root itself).
-/

set_option autoImplicit false

/-- Outcome of the containment check in `Zipper.add` (src/appengine.py lines
99-104): `ok s` is the branch computing `archivename = normfname[len(topdir)+1:]`,
`runtimeError` the declared `RuntimeError("... not found in ...")`, and
`indexError` the `IndexError` Python raises when `normfname[len(self.topdir)]`
indexes past the end of the string. -/
inductive AddResult where
  | ok (archivename : List Char)
  | runtimeError
  | indexError
deriving DecidableEq

/-- The check `normfname.startswith(self.topdir) and normfname[len(self.topdir)] == os.sep`
of `Zipper.add`, together with the slice `normfname[len(self.topdir)+1:]`.
Python's `and` short-circuits, so the index is only evaluated when the
`startswith` test succeeded; it raises `IndexError` exactly when the string has
no character at position `len(topdir)`, i.e. when `normfname == topdir`. -/
def zipperAddCheck (topdir normfname : List Char) : AddResult :=
  if normfname.take topdir.length = topdir then
    match normfname.drop topdir.length with
    | [] => AddResult.indexError
    | c :: rest => if c = '/' then AddResult.ok rest else AddResult.runtimeError
  else AddResult.runtimeError

/-- Observable outcome of a whole `Zipper.add` call: `wrote src arch` models
`self.zip.write(os.path.realpath(fname), archivename, ...)`. -/
inductive AddOutcome where
  | wrote (source : List Char) (archivename : List Char)
  | runtimeError
  | indexError
deriving DecidableEq

/-- `Zipper.add(fname, archname)` (src/appengine.py lines 94-107).  `resolve`
stands for `os.path.abspath(os.path.normpath(-))` at the current working
directory, `realp` for `os.path.realpath`.  `archname` defaults to `fname`. -/
def zipperAdd (resolve realp : List Char → List Char) (topdir fname : List Char)
    (archname : Option (List Char)) : AddOutcome :=
  let a := archname.getD fname
  match zipperAddCheck topdir (resolve a) with
  | AddResult.ok s => AddOutcome.wrote (realp fname) s
  | AddResult.runtimeError => AddOutcome.runtimeError
  | AddResult.indexError => AddOutcome.indexError

/-- The spec's notion of a path lying strictly under the root: the root,
followed by a path separator, followed by a non-empty suffix. -/
def strictlyUnder (t f : List Char) : Bool :=
  decide (f.take t.length = t) &&
    match f.drop t.length with
    | c :: rest => decide (c = '/') && !rest.isEmpty
    | [] => false

/-- Shape invariant satisfied by every output of
`os.path.abspath(os.path.normpath(-))` (and by `os.getcwd()`, the value stored
in `self.topdir`): the path is absolute, and does not end with the separator
unless it is the root `/` itself. -/
def resolvedShape (p : List Char) : Bool :=
  match p with
  | [] => false
  | c :: rest => decide (c = '/') && (rest.isEmpty || decide (rest.getLast? ≠ some '/'))

theorem strictlyUnder_iff (t f : List Char) :
    strictlyUnder t f = true ↔ ∃ s, s ≠ [] ∧ f = t ++ '/' :: s := by
  constructor
  · intro h
    unfold strictlyUnder at h
    rcases hd : f.drop t.length with _ | ⟨c, rest⟩ <;> rw [hd] at h
    · simp at h
    · rw [Bool.and_eq_true, decide_eq_true_eq] at h
      obtain ⟨ht, hcr⟩ := h
      rw [Bool.and_eq_true, decide_eq_true_eq] at hcr
      obtain ⟨hc, hrest⟩ := hcr
      subst hc
      refine ⟨rest, ?_, ?_⟩
      · intro hnil; rw [hnil] at hrest; simp at hrest
      · calc f = f.take t.length ++ f.drop t.length := (List.take_append_drop _ _).symm
          _ = t ++ '/' :: rest := by rw [ht, hd]
  · rintro ⟨s, hs, rfl⟩
    unfold strictlyUnder
    rw [List.take_left, List.drop_left]
    rcases s with _ | ⟨c2, rest⟩
    · exact absurd rfl hs
    · simp

theorem zipperAddCheck_spec (t p : List Char)
    (ht : resolvedShape t = true) (hp : resolvedShape p = true) :
    (zipperAddCheck t p = AddResult.runtimeError ↔
      (strictlyUnder t p = false ∧ p ≠ t))
    ∧ (∀ s, zipperAddCheck t p = AddResult.ok s → p = t ++ '/' :: s)
    ∧ (strictlyUnder t p = true → ∃ s, zipperAddCheck t p = AddResult.ok s)
    ∧ (zipperAddCheck t p = AddResult.indexError ↔ p = t) := by
  have hrec : p = p.take t.length ++ p.drop t.length := (List.take_append_drop _ _).symm
  by_cases htake : p.take t.length = t
  · rcases hd : p.drop t.length with _ | ⟨c, rest⟩
    · -- p = t exactly: the IndexError branch
      have hpt : p = t := by rw [hrec, htake, hd, List.append_nil]
      have hcheck : zipperAddCheck t p = AddResult.indexError := by
        unfold zipperAddCheck
        rw [if_pos htake, hd]
      refine ⟨?_, ?_, ?_, ?_⟩
      · rw [hcheck]
        constructor
        · intro h; exact absurd h (by simp)
        · rintro ⟨_, hne⟩; exact absurd hpt hne
      · intro s hs; rw [hcheck] at hs; exact absurd hs (by simp)
      · intro hsu
        rw [strictlyUnder_iff] at hsu
        obtain ⟨s, hs, heq⟩ := hsu
        rw [hpt] at heq
        have := congrArg List.length heq
        simp [List.length_append] at this
      · rw [hcheck]; simp [hpt]
    · by_cases hc : c = '/'
      · subst hc
        -- p = t ++ '/' :: rest
        have hpe : p = t ++ '/' :: rest := by rw [hrec, htake, hd]
        have hrest : rest ≠ [] := by
          intro hnil
          subst hnil
          -- p = t ++ ['/'] ends with the separator yet is not the root
          rcases ht' : t with _ | ⟨c0, t0⟩
          · rw [ht'] at ht; exact absurd ht (by simp [resolvedShape])
          · rw [ht'] at hpe
            have : resolvedShape p = false := by
              rw [hpe]
              show resolvedShape (c0 :: (t0 ++ ['/'])) = false
              simp [resolvedShape, List.getLast?_concat]
            rw [this] at hp; exact absurd hp (by simp)
        have hcheck : zipperAddCheck t p = AddResult.ok rest := by
          unfold zipperAddCheck
          rw [if_pos htake, hd]
          simp
        have hsu : strictlyUnder t p = true := by
          rw [strictlyUnder_iff]; exact ⟨rest, hrest, hpe⟩
        refine ⟨?_, ?_, ?_, ?_⟩
        · rw [hcheck]
          constructor
          · intro h; exact absurd h (by simp)
          · rintro ⟨hf, _⟩; rw [hsu] at hf; exact absurd hf (by simp)
        · intro s hs
          rw [hcheck] at hs
          have : rest = s := by injection hs
          rw [← this]; exact hpe
        · intro _; exact ⟨rest, hcheck⟩
        · rw [hcheck]
          constructor
          · intro h; exact absurd h (by simp)
          · intro hpt
            rw [hpt] at hpe
            have := congrArg List.length hpe
            simp [List.length_append] at this
      · -- prefix matches but the next character is not the separator
        have hcheck : zipperAddCheck t p = AddResult.runtimeError := by
          unfold zipperAddCheck
          rw [if_pos htake, hd]
          simp [hc]
        have hsu : strictlyUnder t p = false := by
          unfold strictlyUnder
          rw [hd]
          simp [hc]
        have hne : p ≠ t := by
          intro hpt
          have : p.drop t.length = [] := by rw [hpt]; simp
          rw [hd] at this; exact absurd this (by simp)
        refine ⟨?_, ?_, ?_, ?_⟩
        · rw [hcheck]; exact ⟨fun _ => ⟨hsu, hne⟩, fun _ => rfl⟩
        · intro s hs; rw [hcheck] at hs; exact absurd hs (by simp)
        · intro h; rw [hsu] at h; exact absurd h (by simp)
        · rw [hcheck]
          constructor
          · intro h; exact absurd h (by simp)
          · intro h; exact absurd h hne
  · -- startswith fails: the declared RuntimeError
    have hcheck : zipperAddCheck t p = AddResult.runtimeError := by
      unfold zipperAddCheck
      rw [if_neg htake]
    have hsu : strictlyUnder t p = false := by
      unfold strictlyUnder
      have : decide (p.take t.length = t) = false := by simp [htake]
      rw [this]
      simp
    have hne : p ≠ t := by
      intro hpt
      apply htake
      rw [hpt]
      simp
    refine ⟨?_, ?_, ?_, ?_⟩
    · rw [hcheck]; exact ⟨fun _ => ⟨hsu, hne⟩, fun _ => rfl⟩
    · intro s hs; rw [hcheck] at hs; exact absurd hs (by simp)
    · intro h; rw [hsu] at h; exact absurd h (by simp)
    · rw [hcheck]
      constructor
      · intro h; exact absurd h (by simp)
      · intro h; exact absurd h hne

/-- C1: `add(filePath, archiveName)` resolves the archive name (defaulting to
the file path) and, as the claim states it, should raise the declared
"entry outside archive root" `RuntimeError` exactly when the resolved path is
not of the form root ++ separator ++ non-empty suffix.  This fails at the
concrete input where the resolved archive name equals the root itself: the
check raises `IndexError` there, not the declared error, so the "if and only
if" is false. -/
theorem c1_counterexample :
    ¬ (zipperAdd (fun q => q) (fun q => q) ("/a".data) ("/a".data) none
         = AddOutcome.runtimeError
       ↔ strictlyUnder ("/a".data) ("/a".data) = false) := by
  decide


theorem zipperAdd_eval_ok (resolve realp : List Char → List Char)
    (topdir fname : List Char) (archname : Option (List Char)) (s : List Char)
    (h : zipperAddCheck topdir (resolve (archname.getD fname)) = AddResult.ok s) :
    zipperAdd resolve realp topdir fname archname
      = AddOutcome.wrote (realp fname) s := by
  simp only [zipperAdd]
  rw [h]

theorem zipperAdd_eval_rt (resolve realp : List Char → List Char)
    (topdir fname : List Char) (archname : Option (List Char))
    (h : zipperAddCheck topdir (resolve (archname.getD fname))
         = AddResult.runtimeError) :
    zipperAdd resolve realp topdir fname archname = AddOutcome.runtimeError := by
  simp only [zipperAdd]
  rw [h]

theorem zipperAdd_eval_ix (resolve realp : List Char → List Char)
    (topdir fname : List Char) (archname : Option (List Char))
    (h : zipperAddCheck topdir (resolve (archname.getD fname))
         = AddResult.indexError) :
    zipperAdd resolve realp topdir fname archname = AddOutcome.indexError := by
  simp only [zipperAdd]
  rw [h]

/-- C1 (amended): over resolved paths (outputs of
`os.path.abspath(os.path.normpath(-))`, see `resolvedShape`), `add` raises the
declared "not found in root" `RuntimeError` iff the resolved archive name does
not lie strictly under the root AND differs from the root itself (when it
equals the root, an `IndexError` is raised instead, see C9); on success the
file is stored under the root-relative archive path. -/
theorem c1_add_outside_root_amended (resolve realp : List Char → List Char)
    (topdir fname : List Char) (archname : Option (List Char))
    (ht : resolvedShape topdir = true)
    (hp : resolvedShape (resolve (archname.getD fname)) = true) :
    (zipperAdd resolve realp topdir fname archname = AddOutcome.runtimeError ↔
       (strictlyUnder topdir (resolve (archname.getD fname)) = false ∧
        resolve (archname.getD fname) ≠ topdir))
    ∧ (∀ s, zipperAdd resolve realp topdir fname archname
            = AddOutcome.wrote (realp fname) s →
         resolve (archname.getD fname) = topdir ++ '/' :: s)
    ∧ (strictlyUnder topdir (resolve (archname.getD fname)) = true →
         ∃ s, zipperAdd resolve realp topdir fname archname
              = AddOutcome.wrote (realp fname) s) := by
  obtain ⟨hrt, hok, hexists, hidx⟩ :=
    zipperAddCheck_spec topdir (resolve (archname.getD fname)) ht hp
  rcases hchk : zipperAddCheck topdir (resolve (archname.getD fname))
    with s | _ | _
  · have he := zipperAdd_eval_ok resolve realp topdir fname archname s hchk
    refine ⟨?_, ?_, ?_⟩
    · rw [he]
      constructor
      · intro h; exact absurd h (by simp)
      · rintro ⟨hf, hne⟩
        have := hrt.mpr ⟨hf, hne⟩
        rw [hchk] at this
        exact absurd this (by simp)
    · intro s2 hs2
      rw [he] at hs2
      have hss : s = s2 := by injection hs2
      rw [← hss]
      exact hok s hchk
    · intro _; exact ⟨s, he⟩
  · have he := zipperAdd_eval_rt resolve realp topdir fname archname hchk
    refine ⟨?_, ?_, ?_⟩
    · rw [he]; exact ⟨fun _ => hrt.mp hchk, fun _ => rfl⟩
    · intro s2 hs2
      rw [he] at hs2
      exact absurd hs2 (by simp)
    · intro hsu
      obtain ⟨s2, hs2⟩ := hexists hsu
      rw [hchk] at hs2
      exact absurd hs2 (by simp)
  · have he := zipperAdd_eval_ix resolve realp topdir fname archname hchk
    have hpt := hidx.mp hchk
    refine ⟨?_, ?_, ?_⟩
    · rw [he]
      constructor
      · intro h; exact absurd h (by simp)
      · rintro ⟨_, hne⟩; exact absurd hpt hne
    · intro s2 hs2
      rw [he] at hs2
      exact absurd hs2 (by simp)
    · intro hsu
      obtain ⟨s2, hs2⟩ := hexists hsu
      rw [hchk] at hs2
      exact absurd hs2 (by simp)

/-- Witness for C1 (amended): root `/a`, archive name `/a/b` resolved by the
identity; the call does not raise the declared error, and indeed `/a/b` lies
strictly under `/a`. -/
theorem c1_witness :
    zipperAdd (fun q => q) (fun q => q) ("/a".data) ("/a/b".data) none
      = AddOutcome.runtimeError ↔
    (strictlyUnder ("/a".data) ("/a/b".data) = false ∧ "/a/b".data ≠ "/a".data) :=
  (c1_add_outside_root_amended (fun q => q) (fun q => q) ("/a".data) ("/a/b".data)
    none (by decide) (by decide)).1

/-- C9: when the resolved archive name equals the archive root exactly, the
containment check indexes one character past the end of the string
(`normfname[len(self.topdir)]`), so the call raises `IndexError` — neither the
declared `RuntimeError` nor a successful write. -/
theorem c9_root_equal_index_error (resolve realp : List Char → List Char)
    (topdir fname : List Char) (archname : Option (List Char))
    (h : resolve (archname.getD fname) = topdir) :
    zipperAdd resolve realp topdir fname archname = AddOutcome.indexError := by
  have hchk : zipperAddCheck topdir (resolve (archname.getD fname))
      = AddResult.indexError := by
    rw [h]
    unfold zipperAddCheck
    rw [if_pos (by simp), List.drop_length]
  exact zipperAdd_eval_ix resolve realp topdir fname archname hchk

/-- Witness for C9: root `/a`, file name `/a`, default archive name, identity
resolution — the call ends in the `IndexError` outcome. -/
theorem c9_witness :
    zipperAdd (fun q => q) (fun q => q) ("/a".data) ("/a".data) none
      = AddOutcome.indexError :=
  c9_root_equal_index_error (fun q => q) (fun q => q) ("/a".data) ("/a".data)
    none rfl

/-- C10: the containment check of `Zipper.add` constrains only the resolved
archive name, never the `fname` argument: for EVERY `fname` — in particular a
path lying entirely outside the archive root — the call succeeds and writes
`os.path.realpath(fname)` into the archive under the root-relative name, as
long as the archive name resolves strictly under the root. -/
theorem c10_fname_unchecked (resolve realp : List Char → List Char)
    (topdir fname archn : List Char)
    (h : strictlyUnder topdir (resolve archn) = true) :
    zipperAdd resolve realp topdir fname (some archn)
      = AddOutcome.wrote (realp fname) ((resolve archn).drop (topdir.length + 1)) := by
  rw [strictlyUnder_iff] at h
  obtain ⟨s, hs, heq⟩ := h
  have hchk : zipperAddCheck topdir (resolve ((some archn).getD fname))
      = AddResult.ok s := by
    simp only [Option.getD_some]
    unfold zipperAddCheck
    rw [heq, List.take_left, List.drop_left]
    simp
  have he := zipperAdd_eval_ok resolve realp topdir fname (some archn) s hchk
  rw [he]
  have hdrop : (resolve archn).drop (topdir.length + 1) = s := by
    rw [heq]
    have h2 : topdir ++ '/' :: s = (topdir ++ ['/']) ++ s := by simp
    rw [h2]
    have hlen : (topdir ++ ['/']).length = topdir.length + 1 := by simp
    rw [← hlen, List.drop_left]
  rw [hdrop]

/-- Witness for C10: the file `/outside/x` is not under the root `/a`, yet
`add` succeeds because only the archive name `/a/b` is checked. -/
theorem c10_witness :
    zipperAdd (fun q => q) (fun q => q) ("/a".data) ("/outside/x".data)
      (some ("/a/b".data))
      = AddOutcome.wrote ("/outside/x".data) (("/a/b".data).drop 3) :=
  c10_fname_unchecked (fun q => q) (fun q => q) ("/a".data) ("/outside/x".data)
    ("/a/b".data) (by decide)

/-- Events of one `Recipe.zip_packages` run (src/appengine.py lines 295-305):
the archive is opened by `Zipper.__init__`, each file found by `os.walk` is
passed to `zipper.add`, and `zipper.close()` runs as the last statement of the
function.  There is no `try`/`finally`: an exception from `add` propagates and
the remaining statements, `close()` included, never execute. -/
inductive ZEvent where
  | openZip
  | wroteFile (archivename : List Char)
  | closeZip
deriving DecidableEq

/-- The `for root, dirs, files in os.walk('.')` loop body of `zip_packages`:
each walked file is added with `archname = None`, so its own (cwd-relative)
path is resolved and checked; on the first failing `add` the loop is abandoned
with no further events. -/
def zipLoop (resolve : List Char → List Char) (topdir : List Char) :
    List (List Char) → List ZEvent
  | [] => [ZEvent.closeZip]
  | f :: rest =>
    match zipperAddCheck topdir (resolve f) with
    | AddResult.ok s => ZEvent.wroteFile s :: zipLoop resolve topdir rest
    | AddResult.runtimeError => []
    | AddResult.indexError => []

/-- `Recipe.zip_packages`, as the trace of archive-handle events it produces on
a walked file list. -/
def zip_packages (resolve : List Char → List Char) (topdir : List Char)
    (files : List (List Char)) : List ZEvent :=
  ZEvent.openZip :: zipLoop resolve topdir files

/-- Whether `Zipper.add` would succeed on this resolved name. -/
def addOk (topdir f : List Char) : Bool :=
  match zipperAddCheck topdir f with
  | AddResult.ok _ => true
  | AddResult.runtimeError => false
  | AddResult.indexError => false

/-- C2: the claim that `close()` is invoked exactly once on EVERY execution
path of `zip_packages`, including the path where `add` raises, is false at a
concrete input: with archive root `/a` and a single walked file resolving to
`/b`, `add` raises and the trace contains no close event at all. -/
theorem c2_counterexample :
    ¬ ((zip_packages (fun q => q) ("/a".data) [("/b".data)]).count ZEvent.closeZip
        = 1) := by
  decide

theorem zipLoop_count_close (resolve : List Char → List Char) (topdir : List Char)
    (files : List (List Char)) :
    (zipLoop resolve topdir files).count ZEvent.closeZip =
      if files.all (fun f => addOk topdir (resolve f)) then 1 else 0 := by
  induction files with
  | nil => simp [zipLoop]
  | cons f rest ih =>
    rw [zipLoop]
    rcases hchk : zipperAddCheck topdir (resolve f) with s | _ | _
    · have hok : addOk topdir (resolve f) = true := by
        unfold addOk; rw [hchk]
      rw [List.all_cons, hok]
      simp only [Bool.true_and]
      simp [List.count_cons, ih]
    · have hok : addOk topdir (resolve f) = false := by
        unfold addOk; rw [hchk]
      rw [List.all_cons, hok]
      simp
    · have hok : addOk topdir (resolve f) = false := by
        unfold addOk; rw [hchk]
      rw [List.all_cons, hok]
      simp

/-- C2 (amended): `zip_packages` invokes `close()` exactly once on the normal
path — when every walked file passes the containment check of `add` — and
zero times when some `add` raises, because the function has no `try`/`finally`
and the exception exits the frame before the final `close()` statement. -/
theorem c2_close_amended (resolve : List Char → List Char) (topdir : List Char)
    (files : List (List Char)) :
    (zip_packages resolve topdir files).count ZEvent.closeZip =
      if files.all (fun f => addOk topdir (resolve f)) then 1 else 0 := by
  unfold zip_packages
  simp [List.count_cons, zipLoop_count_close]

/-- Python's `s.partition(':')` restricted to what `parse_version` uses: the
text before the first colon and the text after it (`ver` is empty both when
the line has no colon and when the colon is last). -/
def partitionColon : List Char → List Char × List Char
  | [] => ([], [])
  | c :: rest =>
    if c = ':' then ([], rest)
    else
      let pr := partitionColon rest
      (c :: pr.1, pr.2)

/-- Python's `s.strip(' "')`: remove every leading and trailing character that
is a space or a double quote. -/
def stripChars (cs : List Char) (s : List Char) : List Char :=
  ((s.dropWhile (fun c => c ∈ cs)).reverse.dropWhile (fun c => c ∈ cs)).reverse

/-- `parse_version` (src/appengine.py lines 195-198):
`p, _, ver = s.split('\n')[0].partition(':')`, then
`assert p == 'release'` (the `AssertionError` is the `error` case), then
`return ver.strip(' "')`. -/
def parse_version (s : List Char) : Except Unit (List Char) :=
  let line := s.takeWhile (fun c => c ≠ '\n')
  let pr := partitionColon line
  if pr.1 = "release".data then Except.ok (stripChars [' ', '"'] pr.2)
  else Except.error ()

/-- The archive fetched for the configured URL, reduced to what
`install_appengine` reads from it: the content of the embedded
`google_appengine/VERSION` marker file. -/
structure Archive where
  versionFile : List Char

/-- The filesystem state `install_appengine` interacts with: whether the
archive is already present in the download cache, and the `VERSION` content of
the installed `parts/google_appengine` copy (`none` when that directory does
not exist). -/
structure InstallState where
  cached : Bool
  installed : Option (List Char)

/-- Side effects of `install_appengine`: the HTTP download, the
`shutil.rmtree` of the old installation, and the extraction of the archive
into the parts directory. -/
inductive InstEvent where
  | download
  | removeOld
  | extract
deriving DecidableEq

/-- Result of one `install_appengine` run: the events it performed, the
resulting filesystem state, and whether it aborted with the
`AssertionError('Could not parse GAE SDK version')` from `parse_version`. -/
structure InstallResult where
  events : List InstEvent
  state : InstallState
  fatalError : Bool

/-- `Recipe.install_appengine` (src/appengine.py lines 193-241).  The cached
archive is downloaded only when missing; the version markers are parsed ONLY
when `parts/google_appengine` already exists (the fresh-install path never
reads them); on version mismatch the old tree is removed and the archive
extracted; on a parse failure the `AssertionError` propagates before any
removal or extraction, leaving the installed tree as it was. -/
def install_appengine (arch : Archive) (st : InstallState) : InstallResult :=
  let dl : List InstEvent := if st.cached then [] else [InstEvent.download]
  let st1 : InstallState := { cached := true, installed := st.installed }
  match st.installed with
  | some content =>
    match parse_version arch.versionFile with
    | Except.error _ => ⟨dl, st1, true⟩
    | Except.ok vz =>
      match parse_version content with
      | Except.error _ => ⟨dl, st1, true⟩
      | Except.ok vd =>
        if vz = vd then ⟨dl, st1, false⟩
        else ⟨dl ++ [InstEvent.removeOld, InstEvent.extract],
              { cached := true, installed := some arch.versionFile }, false⟩
  | none =>
    ⟨dl ++ [InstEvent.extract],
     { cached := true, installed := some arch.versionFile }, false⟩

/-- The state before any run: nothing cached, nothing installed. -/
def freshState : InstallState := ⟨false, none⟩

/-- Two consecutive `install_appengine` runs against the same unchanged URL
(hence the same archive), with no external change in between. -/
def runTwice (arch : Archive) : InstallResult × InstallResult :=
  let r1 := install_appengine arch freshState
  (r1, install_appengine arch r1.state)

/-- C3: the claim that a malformed version marker always aborts the
installation is false at a concrete input: on a fresh install
(`parts/google_appengine` absent) the marker is never parsed, so an archive
whose marker lacks the `release` prefix entirely is extracted and installed
without any error. -/
theorem c3_counterexample :
    (install_appengine ⟨"garbage".data⟩ ⟨true, none⟩).fatalError = false ∧
    (install_appengine ⟨"garbage".data⟩ ⟨true, none⟩).events
      = [InstEvent.extract] := by
  constructor <;> rfl

/-- C3 (amended): the malformed-marker abort happens only on runs where a
previously installed copy exists.  There, if the archive's marker does not
parse (its first line's text before the first colon is not exactly `release`),
the run aborts with the fatal parse error before any removal or extraction:
the installed copy is left exactly as it was, so no partial installation is
left behind.  (On a fresh install the marker is never parsed at all, see the
counterexample.) -/
theorem c3_malformed_marker_amended (arch : Archive) (st : InstallState)
    (content : List Char) (hi : st.installed = some content)
    (hbad : parse_version arch.versionFile = Except.error ()) :
    (install_appengine arch st).fatalError = true ∧
    (install_appengine arch st).state.installed = some content ∧
    InstEvent.removeOld ∉ (install_appengine arch st).events ∧
    InstEvent.extract ∉ (install_appengine arch st).events := by
  unfold install_appengine
  rw [hi, hbad]
  rcases st.cached with _ | _ <;> simp

/-- Witness for C3 (amended): marker `bogus` (no `release:` prefix) with a
well-formed installed copy — the run aborts and the installed copy survives
untouched. -/
theorem c3_witness :
    (install_appengine ⟨"bogus".data⟩ ⟨true, some ("release: \"1.9.0\"".data)⟩).fatalError
      = true ∧
    (install_appengine ⟨"bogus".data⟩ ⟨true, some ("release: \"1.9.0\"".data)⟩).state.installed
      = some ("release: \"1.9.0\"".data) ∧
    InstEvent.removeOld ∉
      (install_appengine ⟨"bogus".data⟩ ⟨true, some ("release: \"1.9.0\"".data)⟩).events ∧
    InstEvent.extract ∉
      (install_appengine ⟨"bogus".data⟩ ⟨true, some ("release: \"1.9.0\"".data)⟩).events :=
  c3_malformed_marker_amended ⟨"bogus".data⟩ ⟨true, some ("release: \"1.9.0\"".data)⟩
    ("release: \"1.9.0\"".data) rfl rfl

/-- C4: when the install directory already contains an installed copy and both
markers parse, the two version strings (each the text after the first colon,
stripped of spaces and quotes) are compared by plain string equality — no
semantic-version ordering: equal strings mean no removal and no extraction
with the installed tree unchanged, different strings mean the old installation
is removed and the archive extracted and installed. -/
theorem c4_version_compare (arch : Archive) (st : InstallState)
    (content vz vd : List Char) (hi : st.installed = some content)
    (h1 : parse_version arch.versionFile = Except.ok vz)
    (h2 : parse_version content = Except.ok vd) :
    ((InstEvent.extract ∈ (install_appengine arch st).events) ↔ vz ≠ vd) ∧
    ((InstEvent.removeOld ∈ (install_appengine arch st).events) ↔ vz ≠ vd) ∧
    (vz = vd → (install_appengine arch st).state.installed = some content) ∧
    (vz ≠ vd →
      (install_appengine arch st).state.installed = some arch.versionFile) ∧
    (install_appengine arch st).fatalError = false := by
  obtain ⟨cached, inst⟩ := st
  have hi2 : inst = some content := hi
  subst hi2
  by_cases hv : vz = vd
  · simp only [install_appengine, h1, h2, if_pos hv]
    rcases cached with _ | _ <;> simp [hv]
  · simp only [install_appengine, h1, h2, if_neg hv]
    rcases cached with _ | _ <;> simp [hv]

/-- Witness for C4: archive marker `release: "1.9.0"` against an installed
`release: "1.9.0"` — versions parse to the same string, so no removal, no
extraction, installed copy unchanged. -/
theorem c4_witness :
    ((InstEvent.extract ∈
        (install_appengine ⟨"release: \"1.9.0\"".data⟩
          ⟨true, some ("release: \"1.9.0\"".data)⟩).events) ↔
      "1.9.0".data ≠ "1.9.0".data) ∧
    ((InstEvent.removeOld ∈
        (install_appengine ⟨"release: \"1.9.0\"".data⟩
          ⟨true, some ("release: \"1.9.0\"".data)⟩).events) ↔
      "1.9.0".data ≠ "1.9.0".data) ∧
    ("1.9.0".data = "1.9.0".data →
      (install_appengine ⟨"release: \"1.9.0\"".data⟩
        ⟨true, some ("release: \"1.9.0\"".data)⟩).state.installed
        = some ("release: \"1.9.0\"".data)) ∧
    ("1.9.0".data ≠ "1.9.0".data →
      (install_appengine ⟨"release: \"1.9.0\"".data⟩
        ⟨true, some ("release: \"1.9.0\"".data)⟩).state.installed
        = some ("release: \"1.9.0\"".data)) ∧
    (install_appengine ⟨"release: \"1.9.0\"".data⟩
      ⟨true, some ("release: \"1.9.0\"".data)⟩).fatalError = false :=
  c4_version_compare ⟨"release: \"1.9.0\"".data⟩
    ⟨true, some ("release: \"1.9.0\"".data)⟩
    ("release: \"1.9.0\"".data) ("1.9.0".data) ("1.9.0".data) rfl rfl rfl

/-- C5: the claim that for EVERY url two consecutive `install_appengine` runs
leave the second one finding the matching installed version and doing nothing
is false at a concrete input: an archive whose embedded marker is malformed
installs fine on the first run (fresh installs never parse the marker), but
the second run then parses both markers and aborts with the fatal
`AssertionError` instead of succeeding as a no-op. -/
theorem c5_counterexample :
    ¬ ((runTwice ⟨"x".data⟩).2.fatalError = false) := by
  intro h
  exact absurd h (by decide)

/-- C5 (amended): for every archive whose version marker parses, running
`install_appengine` twice from a fresh state performs exactly one download and
one extraction overall — both on the first run — and the second run finds the
cached archive and the matching installed version and does nothing: no events,
no error. -/
theorem c5_idempotent_provision_amended (arch : Archive) (v : List Char)
    (hv : parse_version arch.versionFile = Except.ok v) :
    (runTwice arch).1.events = [InstEvent.download, InstEvent.extract] ∧
    (runTwice arch).1.fatalError = false ∧
    (runTwice arch).2.events = [] ∧
    (runTwice arch).2.fatalError = false ∧
    ((runTwice arch).1.events ++ (runTwice arch).2.events).count
        InstEvent.download = 1 ∧
    ((runTwice arch).1.events ++ (runTwice arch).2.events).count
        InstEvent.extract = 1 := by
  have h1 : install_appengine arch freshState =
      ⟨[InstEvent.download, InstEvent.extract],
       { cached := true, installed := some arch.versionFile }, false⟩ := by
    unfold install_appengine freshState
    rfl
  have h2 : install_appengine arch
      { cached := true, installed := some arch.versionFile } =
      ⟨[], { cached := true, installed := some arch.versionFile }, false⟩ := by
    unfold install_appengine
    simp only [hv]
    simp
  unfold runTwice
  rw [h1]
  simp only [h2]
  simp [List.count_cons]

/-- Witness for C5 (amended): the archive with marker `release: "1.9.0"`. -/
theorem c5_witness :
    (runTwice ⟨"release: \"1.9.0\"".data⟩).1.events
      = [InstEvent.download, InstEvent.extract] ∧
    (runTwice ⟨"release: \"1.9.0\"".data⟩).1.fatalError = false ∧
    (runTwice ⟨"release: \"1.9.0\"".data⟩).2.events = [] ∧
    (runTwice ⟨"release: \"1.9.0\"".data⟩).2.fatalError = false ∧
    ((runTwice ⟨"release: \"1.9.0\"".data⟩).1.events ++
      (runTwice ⟨"release: \"1.9.0\"".data⟩).2.events).count InstEvent.download
      = 1 ∧
    ((runTwice ⟨"release: \"1.9.0\"".data⟩).1.events ++
      (runTwice ⟨"release: \"1.9.0\"".data⟩).2.events).count InstEvent.extract
      = 1 :=
  c5_idempotent_provision_amended ⟨"release: \"1.9.0\"".data⟩ ("1.9.0".data) rfl

mutual
/-- A source filesystem entry as `copytree` traverses it: a regular file or a
directory with named children.  Symbolic links inside the source tree are out
of the model's scope (none of the claims concerns them), so the
`symlinks and os.path.islink(srcname)` branch of `copytree` never fires. -/
inductive SrcTree where
  | file : SrcTree
  | dir : SrcForest → SrcTree

/-- The named children of a source directory, in `os.listdir` order. -/
inductive SrcForest where
  | nil : SrcForest
  | cons : String → SrcTree → SrcForest → SrcForest
end

/-- A destination filesystem entry: a regular file, a symbolic link (with its
target path — `copytree` creates these in symlink mode), or a directory.  A
write that goes through a pre-existing destination link lands at the link's
target, outside the destination tree itself, so the tree keeps the link
unchanged. -/
inductive DstTree where
  | file : DstTree
  | link : String → DstTree
  | dir : List (String × DstTree) → DstTree

/-- Index of the last `.` in a name, if any. -/
def lastDotIdx (name : List Char) : Option Nat :=
  match name.reverse.findIdx? (fun c => c = '.') with
  | none => none
  | some j => some (name.length - 1 - j)

/-- The extension part of Python's `os.path.splitext(name)` (for a name with
no separators): the suffix from the last dot on, except that a name whose
characters before that dot are all dots (such as `.egg-info` itself) has no
extension. -/
def splitextExt (name : String) : List Char :=
  match lastDotIdx name.data with
  | none => []
  | some i =>
    if (name.data.take i).all (fun c => c = '.') then [] else name.data.drop i

/-- The `ext == ".egg-info"` skip at the top of the `copytree` loop. -/
def eggInfo (name : String) : Bool := decide (splitextExt name = ".egg-info".data)

/-- `os.path.normpath(os.path.join(p, n))` for a directory path `p` and a
separator-free entry name `n`. -/
def pjoin (p n : String) : String := p ++ "/" ++ n

/-- `os.path.isfile(srcname)` for a modelled source entry. -/
def isFileB : SrcTree → Bool
  | SrcTree.file => true
  | SrcTree.dir _ => false

/-- The three filter checks of `copytree` (src/appengine.py lines 52-65), in
the code's order: the allow-list check (files only, skipped when the list is
`None` or empty — both falsy), the exact-basename check against `exclude`,
and the `re.match(pattern, srcname)` loop, with the regular-expression engine
abstracted as the parameter `rm`. -/
def entryExcluded (rm : String → String → Bool) (allowed excl : List String)
    (srcname name : String) (isFile : Bool) : Bool :=
  if !allowed.isEmpty && isFile && !(decide (name ∈ allowed)) then true
  else if decide (name ∈ excl) then true
  else excl.any (fun p => rm p srcname)

/-- Name lookup in a destination directory listing. -/
def lookupD : List (String × DstTree) → String → Option DstTree
  | [], _ => none
  | (m, t) :: rest, n => if m = n then some t else lookupD rest n

/-- Create-or-overwrite of a named destination entry. -/
def insertD : List (String × DstTree) → String → DstTree → List (String × DstTree)
  | [], n, t => [(n, t)]
  | (m, u) :: rest, n, t =>
    if m = n then (n, t) :: rest else (m, u) :: insertD rest n t

mutual
/-- The `for name in names` loop of `copytree` (src/appengine.py lines 31-78)
over a source directory listing, threading the destination listing through the
per-entry step. -/
def copytreeForest (rm : String → String → Bool) (fails : String → Bool)
    (sym : Bool) (allowed excl : List String) (srcPath : String) :
    SrcForest → List (String × DstTree) → List (String × DstTree)
  | SrcForest.nil, dst => dst
  | SrcForest.cons name t rest, dst =>
      copytreeForest rm fails sym allowed excl srcPath rest
        (copyTreeAt rm fails sym allowed excl srcPath name t dst)

/-- One iteration of the `copytree` loop for the entry `name` of kind `t`:
the `.egg-info` skip, the three filter checks (see `entryExcluded`), then the
guarded copy/symlink/recurse actions inside `try`.  `fails` is the oracle
saying which file copy/symlink actions raise `IOError`/`os.error` (each such
failure is caught, logged and skipped, leaving the destination unchanged at
that name).  A directory source over an existing destination file, and a file
copy onto an existing destination directory, fail inside the `try` the same
way and leave the destination entry unchanged; writes through a pre-existing
destination symlink land outside the destination tree, which therefore also
keeps the link unchanged. -/
def copyTreeAt (rm : String → String → Bool) (fails : String → Bool)
    (sym : Bool) (allowed excl : List String) (srcPath name : String) :
    SrcTree → List (String × DstTree) → List (String × DstTree)
  | t, dst =>
    if eggInfo name then dst
    else if entryExcluded rm allowed excl (pjoin srcPath name) name (isFileB t) then
      dst
    else
      match t with
      | SrcTree.file =>
        if sym then
          match lookupD dst name with
          | none =>
            if fails (pjoin srcPath name) then dst
            else insertD dst name (DstTree.link (pjoin srcPath name))
          | some _ => dst
        else
          match lookupD dst name with
          | some (DstTree.dir _) => dst
          | some (DstTree.link _) => dst
          | some DstTree.file =>
            if fails (pjoin srcPath name) then dst
            else insertD dst name DstTree.file
          | none =>
            if fails (pjoin srcPath name) then dst
            else insertD dst name DstTree.file
      | SrcTree.dir cs =>
        match lookupD dst name with
        | some DstTree.file => dst
        | some (DstTree.link _) => dst
        | some (DstTree.dir dcs) =>
            insertD dst name (DstTree.dir
              (copytreeForest rm fails sym allowed excl (pjoin srcPath name) cs dcs))
        | none =>
            insertD dst name (DstTree.dir
              (copytreeForest rm fails sym allowed excl (pjoin srcPath name) cs []))
end

/-- Whether some entry of the forest has the given name. -/
def forestHasName : SrcForest → String → Bool
  | SrcForest.nil, _ => false
  | SrcForest.cons m _ rest, n => decide (m = n) || forestHasName rest n

mutual
/-- Well-formedness of a source entry: directory listings never repeat a
name (as `os.listdir` guarantees), recursively. -/
def srcWFtree : SrcTree → Bool
  | SrcTree.file => true
  | SrcTree.dir cs => srcWFforest cs

/-- Well-formedness of a source directory listing. -/
def srcWFforest : SrcForest → Bool
  | SrcForest.nil => true
  | SrcForest.cons n t rest =>
      !forestHasName rest n && srcWFtree t && srcWFforest rest
end

/-- The children of a source entry (`nil` for a file). -/
def childrenOf : SrcTree → SrcForest
  | SrcTree.file => SrcForest.nil
  | SrcTree.dir cs => cs

/-- Whether every entry of the forest named `f` is excluded by the filters. -/
def excludesAll (rm : String → String → Bool) (allowed excl : List String)
    (sp f : String) : SrcForest → Bool
  | SrcForest.nil => true
  | SrcForest.cons n t rest =>
      (if n = f
       then entryExcluded rm allowed excl (pjoin sp f) f (isFileB t)
       else true)
      && excludesAll rm allowed excl sp f rest

/-- Whether the forest contains a regular-file entry with the given name. -/
def hasFileEntry : SrcForest → String → Bool
  | SrcForest.nil, _ => false
  | SrcForest.cons n t rest, f =>
      (decide (n = f) && isFileB t) || hasFileEntry rest f

theorem lookupD_insertD_self (d : List (String × DstTree)) (n : String)
    (t : DstTree) : lookupD (insertD d n t) n = some t := by
  induction d with
  | nil => simp [insertD, lookupD]
  | cons p rest ih =>
    obtain ⟨m, u⟩ := p
    by_cases h : m = n
    · subst h; simp [insertD, lookupD]
    · simp [insertD, lookupD, h, ih]

theorem lookupD_insertD_ne (d : List (String × DstTree)) (n m : String)
    (t : DstTree) (h : n ≠ m) :
    lookupD (insertD d n t) m = lookupD d m := by
  induction d with
  | nil => simp [insertD, lookupD, h]
  | cons p rest ih =>
    obtain ⟨k, u⟩ := p
    by_cases hk : k = n
    · subst hk
      simp [insertD, lookupD, h]
    · by_cases hm : k = m
      · subst hm; simp [insertD, lookupD, hk]
      · simp [insertD, lookupD, hk, hm, ih]

theorem insertD_lookupD_eq (d : List (String × DstTree)) (n : String)
    (t : DstTree) (h : lookupD d n = some t) : insertD d n t = d := by
  induction d with
  | nil => simp [lookupD] at h
  | cons p rest ih =>
    obtain ⟨m, u⟩ := p
    by_cases hm : m = n
    · subst hm
      simp only [lookupD, if_pos rfl] at h
      have : u = t := by injection h
      subst this
      simp [insertD]
    · simp only [lookupD, if_neg hm] at h
      simp [insertD, hm, ih h]

theorem copyTreeAt_shape (rm : String → String → Bool) (fails : String → Bool)
    (sym : Bool) (allowed excl : List String) (srcPath name : String)
    (t : SrcTree) (dst : List (String × DstTree)) :
    copyTreeAt rm fails sym allowed excl srcPath name t dst = dst ∨
    ∃ v, copyTreeAt rm fails sym allowed excl srcPath name t dst
         = insertD dst name v := by
  rcases t with _ | cs <;>
    simp only [copyTreeAt] <;>
    (repeat' split) <;>
    first
      | exact Or.inl rfl
      | exact Or.inr ⟨_, rfl⟩

theorem lookupD_copyTreeAt_ne (rm : String → String → Bool)
    (fails : String → Bool) (sym : Bool) (allowed excl : List String)
    (srcPath name : String) (t : SrcTree) (dst : List (String × DstTree))
    (m : String) (h : name ≠ m) :
    lookupD (copyTreeAt rm fails sym allowed excl srcPath name t dst) m
      = lookupD dst m := by
  rcases copyTreeAt_shape rm fails sym allowed excl srcPath name t dst
    with he | ⟨v, he⟩ <;> rw [he]
  exact lookupD_insertD_ne dst name m v h

theorem lookupD_copytreeForest_notin (rm : String → String → Bool)
    (fails : String → Bool) (sym : Bool) (allowed excl : List String)
    (srcPath : String) (s : SrcForest) (dst : List (String × DstTree))
    (m : String) (h : forestHasName s m = false) :
    lookupD (copytreeForest rm fails sym allowed excl srcPath s dst) m
      = lookupD dst m := by
  match s with
  | SrcForest.nil => rfl
  | SrcForest.cons n t rest =>
    simp only [forestHasName, Bool.or_eq_false_iff] at h
    obtain ⟨hn, hrest⟩ := h
    have hne : n ≠ m := by
      intro hh; rw [hh] at hn; simp at hn
    calc lookupD (copytreeForest rm fails sym allowed excl srcPath
            (SrcForest.cons n t rest) dst) m
        = lookupD (copytreeForest rm fails sym allowed excl srcPath rest
            (copyTreeAt rm fails sym allowed excl srcPath n t dst)) m := rfl
      _ = lookupD (copyTreeAt rm fails sym allowed excl srcPath n t dst) m :=
          lookupD_copytreeForest_notin rm fails sym allowed excl srcPath rest _ m hrest
      _ = lookupD dst m :=
          lookupD_copyTreeAt_ne rm fails sym allowed excl srcPath n t dst m hne

theorem copyTreeAt_stable (rm : String → String → Bool) (fails : String → Bool)
    (sym : Bool) (allowed excl : List String) (srcPath name : String)
    (t : SrcTree)
    (hin : ∀ y, copytreeForest rm fails sym allowed excl (pjoin srcPath name)
             (childrenOf t)
             (copytreeForest rm fails sym allowed excl (pjoin srcPath name)
               (childrenOf t) y)
           = copytreeForest rm fails sym allowed excl (pjoin srcPath name)
               (childrenOf t) y)
    (d X : List (String × DstTree))
    (hX : lookupD X name
          = lookupD (copyTreeAt rm fails sym allowed excl srcPath name t d) name) :
    copyTreeAt rm fails sym allowed excl srcPath name t X = X := by
  by_cases hegg : eggInfo name = true
  · rw [copyTreeAt.eq_def]
    simp [hegg]
  · replace hegg : eggInfo name = false := by simpa using hegg
    rcases t with _ | cs
    · -- source entry is a regular file
      by_cases hexc : entryExcluded rm allowed excl (pjoin srcPath name) name
          (isFileB SrcTree.file) = true
      · simp [copyTreeAt, hegg, hexc]
      · replace hexc : entryExcluded rm allowed excl (pjoin srcPath name) name
            (isFileB SrcTree.file) = false := by simpa using hexc
        rcases hsym : sym with _ | _
        · -- copy mode
          subst hsym
          rcases hld : lookupD d name with _ | v
          · by_cases hf : fails (pjoin srcPath name) = true
            · have hEd : copyTreeAt rm fails false allowed excl srcPath name
                  SrcTree.file d = d := by
                simp [copyTreeAt, hegg, hexc, hld, hf]
              rw [hEd, hld] at hX
              simp [copyTreeAt, hegg, hexc, hX, hf]
            · replace hf : fails (pjoin srcPath name) = false := by simpa using hf
              have hEd : copyTreeAt rm fails false allowed excl srcPath name
                  SrcTree.file d = insertD d name DstTree.file := by
                simp [copyTreeAt, hegg, hexc, hld, hf]
              rw [hEd, lookupD_insertD_self] at hX
              have hgoal : copyTreeAt rm fails false allowed excl srcPath name
                  SrcTree.file X = insertD X name DstTree.file := by
                simp [copyTreeAt, hegg, hexc, hX, hf]
              rw [hgoal]
              exact insertD_lookupD_eq X name DstTree.file hX
          · rcases v with _ | tgt | dcs
            · -- destination already holds a file
              by_cases hf : fails (pjoin srcPath name) = true
              · have hEd : copyTreeAt rm fails false allowed excl srcPath name
                    SrcTree.file d = d := by
                  simp [copyTreeAt, hegg, hexc, hld, hf]
                rw [hEd, hld] at hX
                simp [copyTreeAt, hegg, hexc, hX, hf]
              · replace hf : fails (pjoin srcPath name) = false := by simpa using hf
                have hEd : copyTreeAt rm fails false allowed excl srcPath name
                    SrcTree.file d = insertD d name DstTree.file := by
                  simp [copyTreeAt, hegg, hexc, hld, hf]
                rw [hEd, lookupD_insertD_self] at hX
                have hgoal : copyTreeAt rm fails false allowed excl srcPath name
                    SrcTree.file X = insertD X name DstTree.file := by
                  simp [copyTreeAt, hegg, hexc, hX, hf]
                rw [hgoal]
                exact insertD_lookupD_eq X name DstTree.file hX
            · -- destination holds a link: copy goes through it, tree unchanged
              have hEd : copyTreeAt rm fails false allowed excl srcPath name
                  SrcTree.file d = d := by
                simp [copyTreeAt, hegg, hexc, hld]
              rw [hEd, hld] at hX
              simp [copyTreeAt, hegg, hexc, hX]
            · -- destination holds a directory: copy2 fails, caught
              have hEd : copyTreeAt rm fails false allowed excl srcPath name
                  SrcTree.file d = d := by
                simp [copyTreeAt, hegg, hexc, hld]
              rw [hEd, hld] at hX
              simp [copyTreeAt, hegg, hexc, hX]
        · -- symlink mode
          subst hsym
          rcases hld : lookupD d name with _ | v
          · by_cases hf : fails (pjoin srcPath name) = true
            · have hEd : copyTreeAt rm fails true allowed excl srcPath name
                  SrcTree.file d = d := by
                simp [copyTreeAt, hegg, hexc, hld, hf]
              rw [hEd, hld] at hX
              simp [copyTreeAt, hegg, hexc, hX, hf]
            · replace hf : fails (pjoin srcPath name) = false := by simpa using hf
              have hEd : copyTreeAt rm fails true allowed excl srcPath name
                  SrcTree.file d
                  = insertD d name (DstTree.link (pjoin srcPath name)) := by
                simp [copyTreeAt, hegg, hexc, hld, hf]
              rw [hEd, lookupD_insertD_self] at hX
              simp [copyTreeAt, hegg, hexc, hX]
          · have hEd : copyTreeAt rm fails true allowed excl srcPath name
                SrcTree.file d = d := by
              simp [copyTreeAt, hegg, hexc, hld]
            rw [hEd, hld] at hX
            simp [copyTreeAt, hegg, hexc, hX]
    · -- source entry is a directory
      simp only [childrenOf] at hin
      by_cases hexc : entryExcluded rm allowed excl (pjoin srcPath name) name
          (isFileB (SrcTree.dir cs)) = true
      · simp [copyTreeAt, hegg, hexc]
      · replace hexc : entryExcluded rm allowed excl (pjoin srcPath name) name
            (isFileB (SrcTree.dir cs)) = false := by simpa using hexc
        rcases hld : lookupD d name with _ | v
        · have hEd : copyTreeAt rm fails sym allowed excl srcPath name
              (SrcTree.dir cs) d
              = insertD d name (DstTree.dir
                  (copytreeForest rm fails sym allowed excl (pjoin srcPath name)
                    cs [])) := by
            simp [copyTreeAt, hegg, hexc, hld]
          rw [hEd, lookupD_insertD_self] at hX
          have hgoal : copyTreeAt rm fails sym allowed excl srcPath name
              (SrcTree.dir cs) X
              = insertD X name (DstTree.dir
                  (copytreeForest rm fails sym allowed excl (pjoin srcPath name) cs
                    (copytreeForest rm fails sym allowed excl (pjoin srcPath name)
                      cs []))) := by
            simp [copyTreeAt, hegg, hexc, hX]
          rw [hgoal, hin []]
          exact insertD_lookupD_eq X name _ hX
        · rcases v with _ | tgt | dcs
          · have hEd : copyTreeAt rm fails sym allowed excl srcPath name
                (SrcTree.dir cs) d = d := by
              simp [copyTreeAt, hegg, hexc, hld]
            rw [hEd, hld] at hX
            simp [copyTreeAt, hegg, hexc, hX]
          · have hEd : copyTreeAt rm fails sym allowed excl srcPath name
                (SrcTree.dir cs) d = d := by
              simp [copyTreeAt, hegg, hexc, hld]
            rw [hEd, hld] at hX
            simp [copyTreeAt, hegg, hexc, hX]
          · have hEd : copyTreeAt rm fails sym allowed excl srcPath name
                (SrcTree.dir cs) d
                = insertD d name (DstTree.dir
                    (copytreeForest rm fails sym allowed excl (pjoin srcPath name)
                      cs dcs)) := by
              simp [copyTreeAt, hegg, hexc, hld]
            rw [hEd, lookupD_insertD_self] at hX
            have hgoal : copyTreeAt rm fails sym allowed excl srcPath name
                (SrcTree.dir cs) X
                = insertD X name (DstTree.dir
                    (copytreeForest rm fails sym allowed excl (pjoin srcPath name)
                      cs (copytreeForest rm fails sym allowed excl
                        (pjoin srcPath name) cs dcs))) := by
              simp [copyTreeAt, hegg, hexc, hX]
            rw [hgoal, hin dcs]
            exact insertD_lookupD_eq X name _ hX

theorem copytreeForest_idem (rm : String → String → Bool) (fails : String → Bool)
    (sym : Bool) (allowed excl : List String) (srcPath : String) (s : SrcForest)
    (hwf : srcWFforest s = true) (d : List (String × DstTree)) :
    copytreeForest rm fails sym allowed excl srcPath s
      (copytreeForest rm fails sym allowed excl srcPath s d)
    = copytreeForest rm fails sym allowed excl srcPath s d := by
  match s with
  | SrcForest.nil => rfl
  | SrcForest.cons name t rest =>
    simp only [srcWFforest, Bool.and_eq_true, Bool.not_eq_true'] at hwf
    obtain ⟨⟨hname, ht⟩, hrest⟩ := hwf
    have hin : ∀ y, copytreeForest rm fails sym allowed excl (pjoin srcPath name)
        (childrenOf t)
        (copytreeForest rm fails sym allowed excl (pjoin srcPath name)
          (childrenOf t) y)
        = copytreeForest rm fails sym allowed excl (pjoin srcPath name)
            (childrenOf t) y := by
      rcases t with _ | cs
      · intro y; rfl
      · intro y
        simp only [srcWFtree] at ht
        exact copytreeForest_idem rm fails sym allowed excl (pjoin srcPath name)
          cs ht y
    have hpres : lookupD (copytreeForest rm fails sym allowed excl srcPath rest
          (copyTreeAt rm fails sym allowed excl srcPath name t d)) name
        = lookupD (copyTreeAt rm fails sym allowed excl srcPath name t d) name :=
      lookupD_copytreeForest_notin rm fails sym allowed excl srcPath rest _ name
        hname
    have hstab : copyTreeAt rm fails sym allowed excl srcPath name t
          (copytreeForest rm fails sym allowed excl srcPath rest
            (copyTreeAt rm fails sym allowed excl srcPath name t d))
        = copytreeForest rm fails sym allowed excl srcPath rest
            (copyTreeAt rm fails sym allowed excl srcPath name t d) :=
      copyTreeAt_stable rm fails sym allowed excl srcPath name t hin d _ hpres
    show copytreeForest rm fails sym allowed excl srcPath rest
        (copyTreeAt rm fails sym allowed excl srcPath name t
          (copytreeForest rm fails sym allowed excl srcPath rest
            (copyTreeAt rm fails sym allowed excl srcPath name t d)))
      = copytreeForest rm fails sym allowed excl srcPath rest
          (copyTreeAt rm fails sym allowed excl srcPath name t d)
    rw [hstab]
    exact copytreeForest_idem rm fails sym allowed excl srcPath rest hrest _

theorem copyTreeAt_excluded (rm : String → String → Bool) (fails : String → Bool)
    (sym : Bool) (allowed excl : List String) (srcPath name : String)
    (t : SrcTree) (dst : List (String × DstTree))
    (h : entryExcluded rm allowed excl (pjoin srcPath name) name (isFileB t)
         = true) :
    copyTreeAt rm fails sym allowed excl srcPath name t dst = dst := by
  rw [copyTreeAt.eq_def]
  by_cases hegg : eggInfo name = true
  · simp [hegg]
  · replace hegg : eggInfo name = false := by simpa using hegg
    simp [hegg, h]

theorem copytreeForest_excluded_none (rm : String → String → Bool)
    (fails : String → Bool) (sym : Bool) (allowed excl : List String)
    (srcPath f : String) (s : SrcForest) (d : List (String × DstTree))
    (hex : excludesAll rm allowed excl srcPath f s = true)
    (hd : (lookupD d f).isNone = true) :
    (lookupD (copytreeForest rm fails sym allowed excl srcPath s d) f).isNone
      = true := by
  match s with
  | SrcForest.nil => exact hd
  | SrcForest.cons n t rest =>
    simp only [excludesAll, Bool.and_eq_true] at hex
    obtain ⟨hn, hrest⟩ := hex
    show (lookupD (copytreeForest rm fails sym allowed excl srcPath rest
        (copyTreeAt rm fails sym allowed excl srcPath n t d)) f).isNone = true
    by_cases hnf : n = f
    · subst hnf
      rw [if_pos rfl] at hn
      rw [copyTreeAt_excluded rm fails sym allowed excl srcPath n t d hn]
      exact copytreeForest_excluded_none rm fails sym allowed excl srcPath n
        rest d hrest hd
    · apply copytreeForest_excluded_none rm fails sym allowed excl srcPath f
        rest _ hrest
      rw [lookupD_copyTreeAt_ne rm fails sym allowed excl srcPath n t d f hnf]
      exact hd

theorem hasFileEntry_false_of_no_name (s : SrcForest) (f : String)
    (h : forestHasName s f = false) : hasFileEntry s f = false := by
  match s with
  | SrcForest.nil => rfl
  | SrcForest.cons n t rest =>
    simp only [forestHasName, Bool.or_eq_false_iff] at h
    simp only [hasFileEntry, Bool.or_eq_false_iff]
    refine ⟨?_, hasFileEntry_false_of_no_name rest f h.2⟩
    rw [h.1]
    simp

/-- C6: the claim that every filter-excluded file is absent from the
destination after `sync` is false at a concrete input: the destination already
contains an entry `a`, the source entry `a` is excluded by the exclude list,
and `copytree` never deletes destination entries, so `a` is still present
after the run. -/
theorem c6_counterexample :
    ¬ ((lookupD (copytreeForest (fun _ _ => false) (fun _ => false) false []
          ["a"] "/s" (SrcForest.cons "a" SrcTree.file SrcForest.nil)
          [("a", DstTree.file)]) "a").isNone = true) := by
  decide

/-- C6 (amended): for every source tree (with duplicate-free listings, as
`os.listdir` yields) and every destination, re-running `sync` yields a
destination identical to that after the first run (idempotence); and `sync`
never CREATES a filter-excluded entry: a file excluded by the allow-list or an
exclude pattern that is absent from the destination before the run is still
absent after it (a pre-existing destination entry of that name, however, is
left in place, see the counterexample). -/
theorem c6_sync_idempotent_amended (rm : String → String → Bool)
    (fails : String → Bool) (sym : Bool) (allowed excl : List String)
    (srcPath : String) (s : SrcForest) (d : List (String × DstTree)) (f : String)
    (hwf : srcWFforest s = true)
    (hex : excludesAll rm allowed excl srcPath f s = true)
    (hd : (lookupD d f).isNone = true) :
    (copytreeForest rm fails sym allowed excl srcPath s
        (copytreeForest rm fails sym allowed excl srcPath s d)
      = copytreeForest rm fails sym allowed excl srcPath s d)
    ∧ (lookupD (copytreeForest rm fails sym allowed excl srcPath s d) f).isNone
        = true :=
  ⟨copytreeForest_idem rm fails sym allowed excl srcPath s hwf d,
   copytreeForest_excluded_none rm fails sym allowed excl srcPath f s d hex hd⟩

/-- Witness for C6 (amended): source entries `keep` and `x` with `x` in the
exclude list, empty destination — the double run equals the single run and
`x` is absent afterwards. -/
theorem c6_witness :
    (copytreeForest (fun _ _ => false) (fun _ => false) false [] ["x"] "/src"
        (SrcForest.cons "keep" SrcTree.file
          (SrcForest.cons "x" SrcTree.file SrcForest.nil))
        (copytreeForest (fun _ _ => false) (fun _ => false) false [] ["x"] "/src"
          (SrcForest.cons "keep" SrcTree.file
            (SrcForest.cons "x" SrcTree.file SrcForest.nil)) [])
      = copytreeForest (fun _ _ => false) (fun _ => false) false [] ["x"] "/src"
          (SrcForest.cons "keep" SrcTree.file
            (SrcForest.cons "x" SrcTree.file SrcForest.nil)) [])
    ∧ (lookupD (copytreeForest (fun _ _ => false) (fun _ => false) false [] ["x"]
          "/src" (SrcForest.cons "keep" SrcTree.file
            (SrcForest.cons "x" SrcTree.file SrcForest.nil)) []) "x").isNone
        = true :=
  c6_sync_idempotent_amended (fun _ _ => false) (fun _ => false) false [] ["x"]
    "/src" (SrcForest.cons "keep" SrcTree.file
      (SrcForest.cons "x" SrcTree.file SrcForest.nil)) [] "x"
    (by decide) (by decide) (by decide)

/-- C7: a failure to copy any single entry is caught by the per-entry
`try`/`except (IOError, os.error)` of `copytree`, logged and skipped, and
synchronization continues with the remaining entries: for EVERY failure
oracle `fails` — no matter which other entries fail — an includable file
entry whose own copy does not fail is still copied to the destination. -/
theorem c7_failure_nonfatal (rm : String → String → Bool) (fails : String → Bool)
    (allowed excl : List String) (srcPath : String) (s : SrcForest)
    (d : List (String × DstTree)) (f : String)
    (hwf : srcWFforest s = true)
    (hmem : hasFileEntry s f = true)
    (hegg : eggInfo f = false)
    (hexc : entryExcluded rm allowed excl (pjoin srcPath f) f true = false)
    (hfail : fails (pjoin srcPath f) = false)
    (hd : (lookupD d f).isNone = true) :
    lookupD (copytreeForest rm fails false allowed excl srcPath s d) f
      = some DstTree.file := by
  match s with
  | SrcForest.nil => exact absurd hmem (by simp [hasFileEntry])
  | SrcForest.cons n t rest =>
    simp only [srcWFforest, Bool.and_eq_true, Bool.not_eq_true'] at hwf
    obtain ⟨⟨hname, hwt⟩, hwrest⟩ := hwf
    show lookupD (copytreeForest rm fails false allowed excl srcPath rest
        (copyTreeAt rm fails false allowed excl srcPath n t d)) f
      = some DstTree.file
    by_cases hnf : n = f
    · subst hnf
      have hmrest : hasFileEntry rest n = false :=
        hasFileEntry_false_of_no_name rest n hname
      simp only [hasFileEntry, hmrest, Bool.or_false, Bool.and_eq_true,
        decide_eq_true_eq] at hmem
      have htf : t = SrcTree.file := by
        rcases t with _ | cs
        · rfl
        · exact absurd hmem.2 (by simp [isFileB])
      subst htf
      have hldn : lookupD d n = none := by
        rcases hl : lookupD d n with _ | v
        · rfl
        · rw [hl] at hd; simp at hd
      have hstep : copyTreeAt rm fails false allowed excl srcPath n
          SrcTree.file d = insertD d n DstTree.file := by
        simp [copyTreeAt, isFileB, hegg, hexc, hldn, hfail]
      rw [hstep]
      rw [lookupD_copytreeForest_notin rm fails false allowed excl srcPath rest
        _ n hname]
      exact lookupD_insertD_self d n DstTree.file
    · have hmrest : hasFileEntry rest f = true := by
        simp only [hasFileEntry, Bool.or_eq_true, Bool.and_eq_true,
          decide_eq_true_eq] at hmem
        rcases hmem with ⟨hh, _⟩ | hh
        · exact absurd hh hnf
        · exact hh
      apply c7_failure_nonfatal rm fails allowed excl srcPath rest _ f hwrest
        hmrest hegg hexc hfail
      rw [lookupD_copyTreeAt_ne rm fails false allowed excl srcPath n t d f hnf]
      exact hd

/-- Witness for C7: the entry `bad` fails to copy (the oracle fails exactly
on `/src/bad`), yet the later entry `ok` is still copied into the empty
destination. -/
theorem c7_witness :
    lookupD (copytreeForest (fun _ _ => false)
        (fun p => decide (p = "/src/bad")) false [] [] "/src"
        (SrcForest.cons "bad" SrcTree.file
          (SrcForest.cons "ok" SrcTree.file SrcForest.nil)) []) "ok"
      = some DstTree.file :=
  c7_failure_nonfatal (fun _ _ => false) (fun p => decide (p = "/src/bad"))
    [] [] "/src"
    (SrcForest.cons "bad" SrcTree.file
      (SrcForest.cons "ok" SrcTree.file SrcForest.nil)) [] "ok"
    (by decide) (by decide) (by decide) (by decide) (by decide) (by decide)

/-- C8: the filter decision of `copytree`, applied identically at every
directory level of the recursion, excludes an entry exactly when: an
allow-list is present, the entry is a file and its basename is not in the
allow-list; or its basename equals some exclude entry exactly; or some
exclude entry, read as a regular expression (the engine abstracted as `rm`),
matches the entry's full path from its start.  And whenever the decision
excludes an entry, the per-entry step of `copytree` leaves the destination
unchanged, whatever the level's source path is. -/
theorem c8_should_include (rm : String → String → Bool)
    (allowed excl : List String) (srcname name : String) (isFile : Bool) :
    (entryExcluded rm allowed excl srcname name isFile = true ↔
      ((allowed ≠ [] ∧ isFile = true ∧ name ∉ allowed) ∨ name ∈ excl ∨
        ∃ p ∈ excl, rm p srcname = true))
    ∧ (∀ fails sym srcPath t dst,
        entryExcluded rm allowed excl (pjoin srcPath name) name (isFileB t)
          = true →
        copyTreeAt rm fails sym allowed excl srcPath name t dst = dst) := by
  constructor
  · constructor
    · intro h
      unfold entryExcluded at h
      split at h
      · rename_i h1
        simp only [Bool.and_eq_true, Bool.not_eq_true', decide_eq_false_iff_not]
          at h1
        obtain ⟨⟨ha, hf⟩, hn⟩ := h1
        left
        refine ⟨?_, hf, hn⟩
        intro hnil
        rw [hnil] at ha
        simp at ha
      · split at h
        · rename_i _ h2
          right; left
          simpa using h2
        · right; right
          simpa [List.any_eq_true] using h
    · intro h
      unfold entryExcluded
      rcases h with ⟨ha, hf, hn⟩ | hm | ⟨p, hp, hrm⟩
      · have hcond : (!allowed.isEmpty && isFile && !(decide (name ∈ allowed)))
            = true := by
          subst hf
          rcases hal : allowed with _ | ⟨a0, arest⟩
          · exact absurd rfl (hal ▸ ha)
          · simp [hn, hal ▸ hn]
        rw [if_pos hcond]
      · split
        · rfl
        · rw [if_pos (by simpa using hm)]
      · split
        · rfl
        · split
          · rfl
          · exact List.any_eq_true.mpr ⟨p, hp, hrm⟩
  · intro fails sym srcPath t dst h
    exact copyTreeAt_excluded rm fails sym allowed excl srcPath name t dst h

/-- Witness for C8: the entry `x` with exclude list containing `x` is
excluded (basename match), and the step leaves the destination unchanged. -/
theorem c8_witness :
    (entryExcluded (fun _ _ => false) [] ["x"] "/s/x" "x" true = true ↔
      (([] : List String) ≠ [] ∧ true = true ∧ "x" ∉ ([] : List String)) ∨
        "x" ∈ ["x"] ∨ ∃ p ∈ ["x"], (fun _ _ => false : String → String → Bool) p "/s/x" = true) ∧
    copyTreeAt (fun _ _ => false) (fun _ => false) false [] ["x"] "/s" "x"
        SrcTree.file [] = [] :=
  ⟨(c8_should_include (fun _ _ => false) [] ["x"] "/s/x" "x" true).1,
   (c8_should_include (fun _ _ => false) [] ["x"] "/s/x" "x" true).2
     (fun _ => false) false "/s" SrcTree.file [] (by decide)⟩
